import Mathlib

/-!
Verification of the CommitMe conventional-commit compliance engine.

This file gives a shallow embedding of the core of the repository:

* the grammar parser built on the regular expression
  `^(?<type>[^(!:]*)(?<scope>\(.*\))?(?<breaking>\s*!)?(?<separator>\s*:)?(?<spacing>\s*)(?<subject>.*)?$`
  (src/conventional_commit.ts, function `parse`, together with
  `intializeIndices`),
* the requirement rules CC-01, CC-04, CC-05, EC-01, EC-02 and PR-01
  (src/requirements.ts),
* the `validate` derivation step producing an `IConventionalCommit`
  (src/conventional_commit.ts, function `validate`),
* the facade functions `validateCommit`, `validatePullRequest` and
  `validateCommits` (src/validator.ts; the repository holds two historical
  versions of this file, both are embedded where a claim depends on them).

JavaScript strings are modelled as Lean strings; `string.length` is the
number of characters (the inputs of interest are ASCII, where the UTF-16
unit count used by JavaScript coincides with the character count).
-/

namespace CommitMe

/-! ### Character classes of the regular expression -/

/-- Character class `[^(!:]` of the `type` capture group. -/
def isTypeChar (c : Char) : Bool :=
  !(c = '(' || c = '!' || c = ':')

/-- JavaScript `\s` restricted to the whitespace characters that can occur in
the inputs of this development (space, tab, line feed, carriage return,
vertical tab, form feed and no-break space). -/
def isSpaceRe (c : Char) : Bool :=
  c = ' ' || c = '\t' || c = '\n' || c = '\r' || c = '\x0b' || c = '\x0c' || c = ' '

/-- JavaScript `.` without the `s` flag: any character except a line
terminator. -/
def isDotChar (c : Char) : Bool :=
  !(c = '\n' || c = '\r' || c = ' ' || c = ' ')

/-! ### Small helpers mirroring JavaScript string primitives -/

/-- JavaScript truthiness of an optional string: `undefined` and the empty
string are falsy, every other string is truthy. -/
def falsy : Option String → Bool
  | none => true
  | some s => s == ""

/-- Negation of `falsy`. -/
def truthy (o : Option String) : Bool := !falsy o

/-- Value of an element that has been checked to be truthy
(the JavaScript code accesses `value` directly there). -/
def getV (o : Option String) : String := o.getD ""

/-- Length used by `intializeIndices` and `addError`:
`value?.length ?? 0`. -/
def olen : Option String → Nat
  | none => 0
  | some s => s.length

/-- JavaScript `String.prototype.trim`, dropping whitespace from both ends. -/
def jsTrim (s : String) : String :=
  String.mk (((s.toList.dropWhile isSpaceRe).reverse.dropWhile isSpaceRe).reverse)

/-- JavaScript `s.includes(" ")`: the string contains a space character. -/
def includesSpace (s : String) : Bool :=
  s.toList.contains ' '

/-- JavaScript `/[^a-z]/i.test(s)`: some character is not a latin letter. -/
def hasNonLetter (s : String) : Bool :=
  s.toList.any fun c =>
    !((97 ≤ c.toNat && c.toNat ≤ 122) || (65 ≤ c.toNat && c.toNat ≤ 90))

/-- JavaScript `String.prototype.toLowerCase` on the ASCII range. -/
def jsToLower (s : String) : String := String.mk (s.toList.map Char.toLower)

/-- JavaScript `s.startsWith(p)`. -/
def jsStartsWith (s p : String) : Bool :=
  p.toList.isPrefixOf s.toList

/-- JavaScript `s.replace(/[()]+/g, "")`: remove every parenthesis. -/
def stripParens (s : String) : String :=
  String.mk (s.toList.filter fun c => !(c = '(' || c = ')'))

/-- JavaScript `String.prototype.substring` with clamping and argument
swapping, as used by rule CC-04 on the scope. -/
def jsSubstring (s : String) (a b : Int) : String :=
  let n : Int := s.length
  let a2 := max 0 (min a n)
  let b2 := max 0 (min b n)
  let lo := min a2 b2
  let hi := max a2 b2
  String.mk ((s.toList.drop lo.toNat).take (hi - lo).toNat)

/-! ### A backtracking matcher for the conventional-commit regular expression

The regular expression of `parse` is a fixed sequence of pieces; the matcher
below implements exactly the backtracking search a JavaScript engine performs
on it: each greedy star offers its candidate splits longest-first, a `(...)?`
group is attempted before it is skipped, and the first complete match wins.
-/

/-- Longest prefix of characters satisfying `p`, together with the rest. -/
def splitRun (p : Char → Bool) : List Char → List Char × List Char
  | [] => ([], [])
  | c :: cs =>
    if p c then
      let r := splitRun p cs
      (c :: r.1, r.2)
    else ([], c :: cs)

/-- Candidate splits of a greedy star over the class `p`, longest first:
exactly the order in which a backtracking engine retries the star. -/
def starCandidates (p : Char → Bool) (l : List Char) : List (List Char × List Char) :=
  let run := (splitRun p l).1
  let rest := (splitRun p l).2
  (List.range (run.length + 1)).reverse.map fun k => (run.take k, run.drop k ++ rest)

/-- First successful alternative of a backtracking search. -/
def firstSome (f : α → Option β) : List α → Option β
  | [] => none
  | a :: l =>
    match f a with
    | some b => some b
    | none => firstSome f l

/-- Captured groups of `ConventionalCommitRegex`.  On a successful match the
groups `type`, `spacing` and `subject` are always defined (their bodies can
match the empty string), while `scope`, `breaking` and `separator` are
`none` when their optional group did not participate. -/
structure RegexGroups where
  type : String
  scope : Option String
  breaking : Option String
  separator : Option String
  spacing : String
  subject : String
  deriving DecidableEq, Repr

/-- Tail `(?<subject>.*)?$`: succeeds when the remainder contains no line
terminator, capturing it whole. -/
def matchSubjectEnd (l : List Char) : Option String :=
  if l.all isDotChar then some (String.mk l) else none

/-- Tail `(?<spacing>\s*)(?<subject>.*)?$`. -/
def matchSpacingTail (l : List Char) : Option (String × String) :=
  firstSome
    (fun sp => (matchSubjectEnd sp.2).map fun u => (String.mk sp.1, u))
    (starCandidates isSpaceRe l)

/-- Tail `(?<separator>\s*:)?(?<spacing>\s*)(?<subject>.*)?$`. -/
def matchSeparatorTail (l : List Char) : Option (Option String × String × String) :=
  let withGroup :=
    firstSome
      (fun sp =>
        match sp.2 with
        | ':' :: rest =>
          (matchSpacingTail rest).map fun r => (some (String.mk (sp.1 ++ [':'])), r.1, r.2)
        | _ => none)
      (starCandidates isSpaceRe l)
  match withGroup with
  | some r => some r
  | none => (matchSpacingTail l).map fun r => (none, r.1, r.2)

/-- Tail starting at the `(?<breaking>\s*!)?` group. -/
def matchBreakingTail (l : List Char) :
    Option (Option String × Option String × String × String) :=
  let withGroup :=
    firstSome
      (fun sp =>
        match sp.2 with
        | '!' :: rest =>
          (matchSeparatorTail rest).map fun r =>
            (some (String.mk (sp.1 ++ ['!'])), r.1, r.2.1, r.2.2)
        | _ => none)
      (starCandidates isSpaceRe l)
  match withGroup with
  | some r => some r
  | none => (matchSeparatorTail l).map fun r => (none, r.1, r.2.1, r.2.2)

/-- Tail starting at the `(?<scope>\(.*\))?` group.  The group body is an
unescaped `(`, a greedy `.*`, and `)`. -/
def matchScopeTail (l : List Char) :
    Option (Option String × Option String × Option String × String × String) :=
  let withGroup : Option (Option String × Option String × Option String × String × String) :=
    match l with
    | '(' :: rest =>
      firstSome
        (fun (sp : List Char × List Char) =>
          match sp.2 with
          | ')' :: rest2 =>
            (matchBreakingTail rest2).map fun r =>
              (some (String.mk (('(' :: sp.1) ++ [')'])), r.1, r.2.1, r.2.2.1, r.2.2.2)
          | _ => none)
        (starCandidates isDotChar rest)
    | _ => none
  match withGroup with
  | some r => some r
  | none => (matchBreakingTail l).map fun r => (none, r.1, r.2.1, r.2.2.1, r.2.2.2)

/-- Full anchored match of `ConventionalCommitRegex` against a message,
starting with the greedy `(?<type>[^(!:]*)`. -/
def matchConventional (l : List Char) : Option RegexGroups :=
  firstSome
    (fun sp =>
      (matchScopeTail sp.2).map fun r =>
        { type := String.mk sp.1
          scope := r.1
          breaking := r.2.1
          separator := r.2.2.1
          spacing := r.2.2.2.1
          subject := r.2.2.2.2 })
    (starCandidates isTypeChar l)

/-! ### Data model (src/conventional_commit.ts) -/

/-- Commit information (interface `ICommit`): hash, subject line (`message`)
and body.  The older commit-it interface exposes the subject line under the
name `subject`; see `ICommit.subject` below. -/
structure ICommit where
  hash : String
  message : String
  body : String
  deriving DecidableEq, Repr

/-- Subject line of a commit, as read by `validateCommits`. -/
def ICommit.subject (c : ICommit) : String := c.message

/-- Conventional-commit element (interface `IConventionalCommitElement`):
index of the element in the commit message and its optional value. -/
structure IConventionalCommitElement where
  index : Nat
  value : Option String
  deriving DecidableEq, Repr

/-- Raw data structure used to validate a commit message (interface
`IRawConventionalCommit`). -/
structure IRawConventionalCommit where
  commit : ICommit
  type : IConventionalCommitElement
  scope : IConventionalCommitElement
  breaking : IConventionalCommitElement
  seperator : IConventionalCommitElement
  spacing : IConventionalCommitElement
  description : IConventionalCommitElement
  body : IConventionalCommitElement
  deriving DecidableEq, Repr

/-- Valid-only view (interface `IConventionalCommit`). -/
structure IConventionalCommit where
  raw : IRawConventionalCommit
  type : String
  scope : Option String
  breaking : Bool
  description : String
  deriving DecidableEq, Repr

/-- Raw structure produced by the regular-expression match of `parse`,
before `intializeIndices` runs: every index is `0` and the values are the
captured groups (`undefined` when the group did not participate or the
whole match failed). -/
def rawOfMatch (commit : ICommit) : IRawConventionalCommit :=
  let g := matchConventional commit.message.toList
  { commit := commit
    type := ⟨0, g.map RegexGroups.type⟩
    scope := ⟨0, g.bind RegexGroups.scope⟩
    breaking := ⟨0, g.bind RegexGroups.breaking⟩
    seperator := ⟨0, g.bind RegexGroups.separator⟩
    spacing := ⟨0, g.map RegexGroups.spacing⟩
    description := ⟨0, g.map RegexGroups.subject⟩
    body := ⟨0, some commit.body⟩ }

/-- Function `intializeIndices` of `parse`: each element index is the
preceding element index plus the length of the preceding value
(`value?.length ?? 0`), assigned sequentially. -/
def intializeIndices (c0 : IRawConventionalCommit) : IRawConventionalCommit :=
  let c1 := { c0 with scope := ⟨c0.type.index + olen c0.type.value, c0.scope.value⟩ }
  let c2 := { c1 with breaking := ⟨c1.scope.index + olen c1.scope.value, c1.breaking.value⟩ }
  let c3 := { c2 with seperator := ⟨c2.breaking.index + olen c2.breaking.value, c2.seperator.value⟩ }
  let c4 := { c3 with spacing := ⟨c3.seperator.index + olen c3.seperator.value, c3.spacing.value⟩ }
  { c4 with description := ⟨c4.spacing.index + olen c4.spacing.value, c4.description.value⟩ }

/-- Parsing phase of `parse` (src/conventional_commit.ts): regular-expression
match followed by `intializeIndices`; validation is performed separately by
`validate` below. -/
def parseRaw (commit : ICommit) : IRawConventionalCommit :=
  intializeIndices (rawOfMatch commit)

/-! ### Diagnostics and configuration (src/requirements.ts) -/

/-- Anchor element passed to `RequirementError.addError`. -/
inductive ElemKey where
  | type | scope | breaking | seperator | spacing | description
  deriving DecidableEq, Repr

/-- Element of a raw commit selected by an anchor key
(`this.commit[type.toString()]` in `addError`). -/
def elemOf (c : IRawConventionalCommit) : ElemKey → IConventionalCommitElement
  | .type => c.type
  | .scope => c.scope
  | .breaking => c.breaking
  | .seperator => c.seperator
  | .spacing => c.spacing
  | .description => c.description

/-- Positioned diagnostic produced by `RequirementError.addError`: commit id,
rule identifier, highlighted clause texts, column (the anchor element index)
and highlight length (the anchor element value length, `0` when absent). -/
structure Diag where
  id : String
  rule : String
  highlights : List String
  column : Nat
  length : Nat
  deriving DecidableEq, Repr

/-- Model of `RequirementError.addError`: the diagnostic is anchored at the
index of the selected element and underlines its value. -/
def mkDiag (c : IRawConventionalCommit) (rule : String) (highlights : List String)
    (k : ElemKey) : Diag :=
  { id := c.commit.hash
    rule := rule
    highlights := highlights
    column := (elemOf c k).index
    length := olen (elemOf c k).value }

/-- Configuration singleton (src/configuration.ts): optional allow-lists for
scopes and types (`undefined` or empty means unrestricted). -/
structure Configuration where
  includeCommits : Bool := false
  includePullRequest : Bool := false
  scopes : Option (List String) := none
  types : Option (List String) := none
  deriving DecidableEq, Repr

/-! ### Commit rules (src/requirements.ts) -/

/-- Rule CC-01 (`Commits MUST be prefixed with a type ...`): diagnostics
emitted by `CC01.validate`, in emission order. -/
def CC01errors (c : IRawConventionalCommit) : List Diag :=
  (if falsy c.type.value || (jsTrim (getV c.type.value)).length == 0 then
    [mkDiag c "CC-01" ["MUST be prefixed with a type"] .type]
  else
    (if includesSpace (jsTrim (getV c.type.value)) || hasNonLetter (jsTrim (getV c.type.value)) then
      [mkDiag c "CC-01" ["which consists of a noun"] .type]
    else []) ++
    (if jsTrim (getV c.type.value) != getV c.type.value then
      (if truthy c.scope.value then
        [mkDiag c "CC-01" ["followed by the OPTIONAL scope"] .scope]
      else if truthy c.breaking.value then
        [mkDiag c "CC-01" ["followed by the", "OPTIONAL !"] .breaking]
      else
        [mkDiag c "CC-01" ["followed by the", "REQUIRED terminal colon"] .seperator])
    else []) ++
    (if truthy c.scope.value && jsTrim (getV c.scope.value) != getV c.scope.value then
      [mkDiag c "CC-01" ["followed by the OPTIONAL scope"] .scope]
    else []) ++
    (if truthy c.breaking.value && jsTrim (getV c.breaking.value) != getV c.breaking.value then
      [mkDiag c "CC-01" ["followed by the", "OPTIONAL !"] .breaking]
    else []) ++
    (if truthy c.seperator.value && jsTrim (getV c.seperator.value) != getV c.seperator.value then
      [mkDiag c "CC-01" ["followed by the", "REQUIRED terminal colon"] .seperator]
    else [])) ++
  (if falsy c.seperator.value then
    [mkDiag c "CC-01" ["followed by the", "REQUIRED terminal colon"] .seperator]
  else if falsy c.spacing.value || (getV c.spacing.value).length != 1 then
    [mkDiag c "CC-01" ["followed by the", "REQUIRED", "space"] .spacing]
  else [])

/-- Rule CC-04 (`A scope MUST consist of a noun ...`): diagnostics emitted by
`CC04.validate`. -/
def CC04errors (c : IRawConventionalCommit) : List Diag :=
  if truthy c.scope.value &&
      (includesSpace (getV c.scope.value) || getV c.scope.value == "()" ||
        hasNonLetter (jsSubstring (getV c.scope.value) 1 ((getV c.scope.value).length - 1))) then
    [mkDiag c "CC-04" ["A scope MUST consist of a noun"] .scope]
  else []

/-- Rule CC-05 (`A description MUST immediately follow the colon and
space ...`): diagnostics emitted by `CC05.validate`. -/
def CC05errors (c : IRawConventionalCommit) : List Diag :=
  if falsy c.seperator.value then []
  else if falsy c.spacing.value || (getV c.spacing.value).length > 1 || falsy c.description.value then
    [mkDiag c "CC-05" ["A description MUST immediately follow the colon and space"] .description]
  else []

/-- Rule EC-01 (scope allow-list): diagnostics emitted by `EC01.validate`
for a given configuration. -/
def EC01errors (cfg : Configuration) (c : IRawConventionalCommit) : List Diag :=
  match cfg.scopes with
  | none => []
  | some scopes =>
    if scopes.length == 0 then []
    else
      match c.scope.value with
      | some s =>
        if scopes.contains (stripParens s) then []
        else [mkDiag c "EC-01" ["scope is REQUIRED", "and", "MUST be one of the configured values"] .scope]
      | none =>
        [mkDiag c "EC-01" ["scope is REQUIRED", "and", "MUST be one of the configured values"] .scope]

/-- Rule EC-02 (type allow-list): diagnostics emitted by `EC02.validate`
for a given configuration. -/
def EC02errors (cfg : Configuration) (c : IRawConventionalCommit) : List Diag :=
  match cfg.types with
  | none => []
  | some types =>
    if types.length == 0 then []
    else
      match c.type.value with
      | some t =>
        if types.contains t then []
        else [mkDiag c "EC-02" ["type MUST be one of the configured values"] .type]
      | none =>
        [mkDiag c "EC-02" ["type MUST be one of the configured values"] .type]

/-! ### Validation and derivation (src/conventional_commit.ts) -/

/-- Per-rule diagnostic lists of the failing rules, in the order of
`commitRules = [CC01, CC04, CC05, EC01, EC02]`: each rule that emitted at
least one diagnostic throws one `RequirementError`, which `validate`
collects. -/
def ruleErrorLists (cfg : Configuration) (c : IRawConventionalCommit) : List (List Diag) :=
  [CC01errors c, CC04errors c, CC05errors c, EC01errors cfg c, EC02errors cfg c].filter
    fun l => !l.isEmpty

/-- Function `validate`: throws the collected rule errors when any rule
failed (`Except.error`); otherwise asserts that the type and description
values are truthy and derives the `IConventionalCommit`.  A failing
assertion (an `AssertionError` escaping `validate`) is modelled as
`Except.ok none`. -/
def validate (cfg : Configuration) (c : IRawConventionalCommit) :
    Except (List (List Diag)) (Option IConventionalCommit) :=
  if (ruleErrorLists cfg c).isEmpty then
    Except.ok
      (if truthy c.type.value && truthy c.description.value then
        some
          { raw := c
            type := getV c.type.value
            scope := c.scope.value
            breaking := c.breaking.value == some "!"
            description := getV c.description.value }
      else none)
  else Except.error (ruleErrorLists cfg c)

/-- Function `parse` (src/conventional_commit.ts): regular-expression
decomposition, index initialisation and validation.  This is also the model
of `getConventionalCommit` of the commit-it package, whose engine is the
vendored conventional_commit.ts code. -/
def parse (cfg : Configuration) (commit : ICommit) :
    Except (List (List Diag)) (Option IConventionalCommit) :=
  validate cfg (parseRaw commit)

/-! ### Precedence model and pull-request validation -/

/-- Insertion of an element into a list sorted by descending order value,
stable for ties. -/
def insertDesc (ov : α → Nat) (a : α) : List α → List α
  | [] => [a]
  | b :: bs => if ov b < ov a then a :: b :: bs else b :: insertDesc ov a bs

/-- Model of `commits.sort((a, b) => (orderValue(a) < orderValue(b) ? 1 : -1))`:
a stable sort by descending order value. -/
def sortDesc (ov : α → Nat) : List α → List α
  | [] => []
  | a :: as => insertDesc ov a (sortDesc ov as)

/-- Local `orderValue` of `PR01.validate` (src/requirements.ts) and of the
older `validatePullRequest` (src/validator.ts): `undefined` maps to `0`, a
breaking commit to `3`, and the type is compared to the literals `"feat"`
and `"fix"` (case-sensitively). -/
def orderValuePR01 : Option IConventionalCommit → Nat
  | none => 0
  | some c =>
    if c.breaking then 3
    else if c.type == "feat" then 2
    else if c.type == "fix" then 1
    else 0

/-- Local `orderValue` of the older `validatePullRequest`
(src/validator.ts): a plain commit (no `type` member) maps to `0`, a
conventional commit as in `orderValuePR01`. -/
def orderValueV1 : Option (ICommit ⊕ IConventionalCommit) → Nat
  | none => 0
  | some (Sum.inl _) => 0
  | some (Sum.inr c) => orderValuePR01 (some c)

/-- Validation result of the older validator (interface
`IValidationResult`): the commit (possibly upgraded to a conventional
commit) and the error messages. -/
structure IValidationResult where
  commit : ICommit ⊕ IConventionalCommit
  errors : List Diag
  deriving DecidableEq, Repr

/-- Function `validateCommit` of the older validator: `getConventionalCommit`
upgrades the commit, a `ConventionalCommitError` contributes its messages.
`Except.ok none` (an assertion failure inside the engine) would escape as an
uncaught exception, modelled as `none`. -/
def validateCommit (cfg : Configuration) (c : ICommit) : Option IValidationResult :=
  match parse cfg c with
  | Except.error ls => some ⟨Sum.inl c, ls.flatten⟩
  | Except.ok (some cc) => some ⟨Sum.inr cc, []⟩
  | Except.ok none => none

/-- Precedence diagnostic pushed by the older `validatePullRequest`:
an error anchored at line 1, caret `(0, 0)`. -/
def precedenceDiagV1 (pr : ICommit) : Diag :=
  { id := pr.hash
    rule := "PR"
    highlights := ["A Pull Request title MUST correlate with a Semantic Versioning identifier"]
    column := 0
    length := 0 }

/-- Older `validatePullRequest` (src/validator.ts, `IValidationResult`
version): validate the pull request, return early on structural errors,
otherwise compare its order value with the order value of the head of the
descending-sorted commits and push exactly one precedence diagnostic when it
is lower. -/
def validatePullRequest (cfg : Configuration) (pr : ICommit)
    (commits : List IConventionalCommit) : Option IValidationResult :=
  match validateCommit cfg pr with
  | none => none
  | some result =>
    if result.errors.length > 0 then some result
    else
      let pullRequestValue := orderValueV1 (some result.commit)
      let commitsValue :=
        orderValueV1 ((sortDesc (fun c => orderValuePR01 (some c)) commits).head?.map Sum.inr)
      if pullRequestValue < commitsValue then
        some { result with errors := result.errors ++ [precedenceDiagV1 pr] }
      else some result

/-- Rule PR-01 (src/requirements.ts, `PR01.validate`): at most one
diagnostic, anchored at the type element of the pull request. -/
def PR01validate (pr : IConventionalCommit) (commits : List IConventionalCommit) : List Diag :=
  let pullRequestValue := orderValuePR01 (some pr)
  let commitsValue := orderValuePR01 (sortDesc (fun c => orderValuePR01 (some c)) commits).head?
  if pullRequestValue < commitsValue then
    [mkDiag pr.raw "PR-01"
      ["title MUST correlate with a Semantic Versioning identifier",
        "with the same or higher precedence than its associated commits"] .type]
  else []

/-- Function `validateCommits` (src/validator.ts, both versions): drop the
commits whose subject starts with `fixup!`, validate the rest. -/
def validateCommits (cfg : Configuration) (commits : List ICommit) :
    List (Option IValidationResult) :=
  (commits.filter fun c => !jsStartsWith c.subject "fixup!").map (validateCommit cfg)

/-! ### The newer validator (src/validator.ts, ConventionalCommit version) -/

/-- Observable fields of a commit-it `ConventionalCommit` object as read by
the newer `validatePullRequest`: hash, subject, optional type, breaking flag
and validity. -/
structure ConventionalCommitIt where
  hash : String
  subject : String
  type : Option String
  breaking : Bool
  isValid : Bool
  deriving DecidableEq, Repr

/-- Local `orderValue` of the newer `validatePullRequest`
(src/validator.ts): the type is lower-cased before comparison. -/
def orderValueV2 (c : ConventionalCommitIt) : Nat :=
  if c.breaking then 3
  else if c.type.map jsToLower == some "feat" then 2
  else if c.type.map jsToLower == some "fix" then 1
  else 0

/-- Precedence diagnostic pushed by the newer `validatePullRequest`:
an error at line 1, column 1, with a fix-it hint covering the type. -/
def precedenceDiagV2 (pr : ConventionalCommitIt) : Diag :=
  { id := pr.hash
    rule := "PR"
    highlights := ["A Pull Request title MUST correlate with a Semantic Versioning identifier"]
    column := 1
    length := (pr.type.map String.length).getD 1 }

/-- Newer `validatePullRequest` (src/validator.ts, ConventionalCommit
version), applied to the already converted pull request: keeps only the
valid commits, sorts them by descending order value and reads the order
value of element `[0]`.  When that element is `undefined` (no valid commit),
`orderValue` dereferences `undefined.breaking` and throws a `TypeError`,
modelled as `none`; otherwise the appended precedence diagnostics are
returned. -/
def validatePullRequestV2 (pr : ConventionalCommitIt)
    (commits : List ConventionalCommitIt) : Option (List Diag) :=
  if !pr.isValid then some []
  else
    let validConventionalCommits := commits.filter fun c => c.isValid
    match (sortDesc orderValueV2 validConventionalCommits).head? with
    | none => none
    | some top =>
      if orderValueV2 pr < orderValueV2 top then some [precedenceDiagV2 pr]
      else some []

/-! ### Derived observations used by the theorems -/

/-- Structural diagnostics of a pull request: the flattened messages when
the engine rejects it, `[]` when it is accepted. -/
def prStructuralErrors (cfg : Configuration) (pr : ICommit) : List Diag :=
  match parse cfg pr with
  | Except.error ls => ls.flatten
  | Except.ok _ => []

/-- Precedence level of a pull request: the order value of its derived
conventional commit, `0` when it has none. -/
def prLevel (cfg : Configuration) (pr : ICommit) : Nat :=
  match parse cfg pr with
  | Except.ok (some cc) => orderValuePR01 (some cc)
  | _ => 0

/-- Order value of the head of a list, `0` for the empty list: the value the
validator reads at `sorted[0]`. -/
def headOrderValue (ov : α → Nat) (l : List α) : Nat :=
  match l.head? with
  | none => 0
  | some a => ov a

/-- Maximum order value over a list of commits, `0` (level `none`) for the
empty list. -/
def listMaxOv (ov : α → Nat) (l : List α) : Nat :=
  l.foldr (fun a n => max (ov a) n) 0

/-- Maximum precedence level over a list of conventional commits. -/
def maxLevel (commits : List IConventionalCommit) : Nat :=
  listMaxOv (fun c => orderValuePR01 (some c)) commits

/-- Precedence level written from the design specification, for comparison
with the implementations: `breaking` maps to `3`, a type equal to `feat`
under case-insensitive comparison to `2`, `fix` to `1`, anything else
(including an absent type) to `0`. -/
def levelSpec (breaking : Bool) (type : Option String) : Nat :=
  if breaking then 3
  else if type.map jsToLower == some "feat" then 2
  else if type.map jsToLower == some "fix" then 1
  else 0

/-- Membership test of rule EC-01: the scope value is present and its text,
stripped of parentheses, is in the configured scope list. -/
def scopeAllowed (cfg : Configuration) (c : IRawConventionalCommit) : Bool :=
  match c.scope.value with
  | some s => (cfg.scopes.getD []).contains (stripParens s)
  | none => false

/-- Membership test of rule EC-02: the type value is present and is in the
configured type list. -/
def typeAllowed (cfg : Configuration) (c : IRawConventionalCommit) : Bool :=
  match c.type.value with
  | some t => (cfg.types.getD []).contains t
  | none => false

/-- Whether a validation outcome carries a derived conventional commit. -/
def derives (r : Except (List (List Diag)) (Option IConventionalCommit)) : Bool :=
  match r with
  | Except.ok (some _) => true
  | _ => false

/-! ### Helper lemmas -/

theorem headOrderValue_insertDesc (ov : α → Nat) (a : α) (l : List α) :
    headOrderValue ov (insertDesc ov a l) = max (ov a) (headOrderValue ov l) := by
  cases l with
  | nil => simp [insertDesc, headOrderValue]
  | cons b bs =>
    by_cases h : ov b < ov a
    · simp only [insertDesc, if_pos h, headOrderValue, List.head?]
      omega
    · simp only [insertDesc, if_neg h, headOrderValue, List.head?]
      omega

theorem headOrderValue_sortDesc (ov : α → Nat) (l : List α) :
    headOrderValue ov (sortDesc ov l) = listMaxOv ov l := by
  induction l with
  | nil => rfl
  | cons a as ih =>
    show headOrderValue ov (insertDesc ov a (sortDesc ov as)) = _
    rw [headOrderValue_insertDesc, ih]
    rfl

theorem ruleErrorLists_eq_nil {cfg : Configuration} {c : IRawConventionalCommit} :
    ruleErrorLists cfg c = [] ↔
      CC01errors c = [] ∧ CC04errors c = [] ∧ CC05errors c = [] ∧
        EC01errors cfg c = [] ∧ EC02errors cfg c = [] := by
  simp [ruleErrorLists, List.filter_eq_nil_iff]

theorem CC01errors_nil_falsy {c : IRawConventionalCommit} (h : CC01errors c = []) :
    falsy c.type.value = false ∧ falsy c.seperator.value = false := by
  cases hft : falsy c.type.value with
  | true => simp [CC01errors, hft] at h
  | false =>
    cases hfs : falsy c.seperator.value with
    | true => simp [CC01errors, hft, hfs] at h
    | false => exact ⟨rfl, rfl⟩

theorem CC05errors_nil_description {c : IRawConventionalCommit}
    (hsep : falsy c.seperator.value = false) (h : CC05errors c = []) :
    falsy c.description.value = false := by
  cases hd : falsy c.description.value with
  | false => rfl
  | true => simp [CC05errors, hsep, hd] at h

theorem validate_ne_ok_none (cfg : Configuration) (c : IRawConventionalCommit) :
    validate cfg c ≠ Except.ok none := by
  unfold validate
  split
  · next hEmpty =>
    have hnil : ruleErrorLists cfg c = [] := by
      simpa using hEmpty
    obtain ⟨h1, -, h5, -, -⟩ := ruleErrorLists_eq_nil.mp hnil
    obtain ⟨ht, hs⟩ := CC01errors_nil_falsy h1
    have hd := CC05errors_nil_description hs h5
    simp [truthy, ht, hd]
  · simp

theorem validate_error_flatten_ne_nil {cfg : Configuration} {c : IRawConventionalCommit}
    {ls : List (List Diag)} (h : validate cfg c = Except.error ls) : ls.flatten ≠ [] := by
  unfold validate at h
  split at h
  · exact absurd h (by simp)
  · next hne =>
    have hls : ls = ruleErrorLists cfg c := by
      cases h
      rfl
    intro hflat
    apply hne
    rw [List.flatten_eq_nil_iff] at hflat
    subst hls
    cases hrl : ruleErrorLists cfg c with
    | nil => simp [hrl]
    | cons l₀ rest =>
      exfalso
      have hmem : l₀ ∈ ruleErrorLists cfg c := by
        rw [hrl]
        exact List.mem_cons_self l₀ rest
      have hpred := List.of_mem_filter hmem
      have : l₀ = [] := hflat l₀ (by rw [hrl]; exact List.mem_cons_self l₀ rest)
      subst this
      simp at hpred

theorem orderValueV1_map_inr (o : Option IConventionalCommit) :
    orderValueV1 (o.map Sum.inr) = headOrderValue (fun c => orderValuePR01 (some c)) o.toList := by
  cases o <;> rfl

/-! ### Claim theorems -/

/-- C4: for every subject string, the six parsed elements are laid out
contiguously: the type element offset is `0` and each subsequent element
offset is the preceding offset plus the preceding value length (`0` for an
absent value); and every diagnostic column is the index of its anchor
element. -/
theorem c4_elements_contiguous (c : ICommit) :
    (parseRaw c).type.index = 0 ∧
    (parseRaw c).scope.index = (parseRaw c).type.index + olen (parseRaw c).type.value ∧
    (parseRaw c).breaking.index = (parseRaw c).scope.index + olen (parseRaw c).scope.value ∧
    (parseRaw c).seperator.index = (parseRaw c).breaking.index + olen (parseRaw c).breaking.value ∧
    (parseRaw c).spacing.index = (parseRaw c).seperator.index + olen (parseRaw c).seperator.value ∧
    (parseRaw c).description.index = (parseRaw c).spacing.index + olen (parseRaw c).spacing.value ∧
    ∀ rule hs k, (mkDiag (parseRaw c) rule hs k).column = (elemOf (parseRaw c) k).index :=
  ⟨rfl, rfl, rfl, rfl, rfl, rfl, fun _ _ _ => rfl⟩

/-- C1: for every pull request and commit list, the older
`validatePullRequest` returns a result whose error list is exactly the
structural diagnostics when the pull request fails structural validation
(the precedence comparator is skipped), exactly one precedence diagnostic —
anchored at column `0`, the offset of the type element — when it passes and
its level is below the maximum level of the commits, and no diagnostic at
all otherwise. -/
theorem c1_pull_request_precedence_diagnostics (cfg : Configuration) (pr : ICommit)
    (commits : List IConventionalCommit) :
    ∃ r, validatePullRequest cfg pr commits = some r ∧
      r.errors =
        (if prStructuralErrors cfg pr = [] then
          if prLevel cfg pr < maxLevel commits then [precedenceDiagV1 pr] else []
        else prStructuralErrors cfg pr) ∧
      (precedenceDiagV1 pr).column = (parseRaw pr).type.index := by
  have hcol : (precedenceDiagV1 pr).column = (parseRaw pr).type.index := rfl
  cases hp : parse cfg pr with
  | error ls =>
    have hne : ls.flatten ≠ [] := validate_error_flatten_ne_nil hp
    have hvc : validateCommit cfg pr = some ⟨Sum.inl pr, ls.flatten⟩ := by
      unfold validateCommit
      rw [hp]
    refine ⟨⟨Sum.inl pr, ls.flatten⟩, ?_, ?_, hcol⟩
    · have hlen : ls.flatten.length > 0 := List.length_pos.mpr hne
      unfold validatePullRequest
      rw [hvc]
      show (if ls.flatten.length > 0 then some (⟨Sum.inl pr, ls.flatten⟩ : IValidationResult) else _)
          = some ⟨Sum.inl pr, ls.flatten⟩
      rw [if_pos hlen]
    · have hse : prStructuralErrors cfg pr = ls.flatten := by
        unfold prStructuralErrors
        rw [hp]
      rw [hse, if_neg hne]
  | ok occ =>
    cases occ with
    | none => exact absurd hp (validate_ne_ok_none cfg (parseRaw pr))
    | some cc =>
      have hvc : validateCommit cfg pr = some ⟨Sum.inr cc, []⟩ := by
        unfold validateCommit
        rw [hp]
      have hse : prStructuralErrors cfg pr = [] := by
        unfold prStructuralErrors
        rw [hp]
      have hlev : prLevel cfg pr = orderValuePR01 (some cc) := by
        unfold prLevel
        rw [hp]
      have hmax :
          orderValueV1 ((sortDesc (fun c => orderValuePR01 (some c)) commits).head?.map Sum.inr)
            = maxLevel commits := by
        have hh :
            orderValueV1 ((sortDesc (fun c => orderValuePR01 (some c)) commits).head?.map Sum.inr)
              = headOrderValue (fun c => orderValuePR01 (some c))
                  (sortDesc (fun c => orderValuePR01 (some c)) commits) := by
          cases hs : sortDesc (fun c => orderValuePR01 (some c)) commits with
          | nil => rfl
          | cons b bs => rfl
        rw [hh, headOrderValue_sortDesc]
        rfl
      have hstep : validatePullRequest cfg pr commits =
          (if orderValuePR01 (some cc) < maxLevel commits
            then some ⟨Sum.inr cc, [precedenceDiagV1 pr]⟩
            else some ⟨Sum.inr cc, []⟩) := by
        unfold validatePullRequest
        rw [hvc]
        show (if ([] : List Diag).length > 0 then some (⟨Sum.inr cc, []⟩ : IValidationResult)
            else
              if orderValueV1 (some (Sum.inr cc)) <
                  orderValueV1
                    ((sortDesc (fun c => orderValuePR01 (some c)) commits).head?.map Sum.inr) then
                some ⟨Sum.inr cc, [] ++ [precedenceDiagV1 pr]⟩
              else some ⟨Sum.inr cc, []⟩) = _
        rw [if_neg (by simp), hmax]
        rfl
      by_cases hcmp : orderValuePR01 (some cc) < maxLevel commits
      · refine ⟨⟨Sum.inr cc, [precedenceDiagV1 pr]⟩, ?_, ?_, hcol⟩
        · rw [hstep, if_pos hcmp]
        · rw [hse, if_pos rfl, if_pos (hlev ▸ hcmp)]
      · refine ⟨⟨Sum.inr cc, []⟩, ?_, ?_, hcol⟩
        · rw [hstep, if_neg hcmp]
        · rw [hse, if_pos rfl, if_neg (by rw [hlev]; exact hcmp)]

/-- C2: the newer `validatePullRequest` does not evaluate totally: on a
structurally valid pull request with an empty commit list, or with a list
whose commits are all structurally invalid, the filtered valid-commit list
is empty, `sorted[0]` is `undefined`, and `orderValue` throws a `TypeError`
(modelled as `none`) instead of producing zero precedence diagnostics. -/
theorem c2_precedence_crash_on_no_valid_commits :
    validatePullRequestV2 ⟨"0a0b0c0d", "feat: Add new feature", some "feat", false, true⟩ [] = none ∧
    validatePullRequestV2 ⟨"0a0b0c0d", "feat: Add new feature", some "feat", false, true⟩
      [⟨"0a0b0c0d", "feat (no noun)!: silly change", none, false, false⟩] = none :=
  ⟨rfl, rfl⟩

/-- C3 fails on the code: the `orderValue` of rule PR-01 compares the type
case-sensitively, so a structurally valid, non-breaking commit of type
`FEAT` maps to level `0`, while the specified case-insensitive level
function maps it to `2`. -/
theorem c3_counterexample_case_sensitive_orderValue :
    (validateCommit {} ⟨"0a0b0c0d", "FEAT: add new feature", ""⟩).map
        (fun r => r.errors.length) = some 0 ∧
    orderValuePR01
        (some ⟨parseRaw ⟨"0a0b0c0d", "FEAT: add new feature", ""⟩,
          "FEAT", none, false, "add new feature"⟩) = 0 ∧
    levelSpec false (some "FEAT") = 2 := by
  refine ⟨by decide, rfl, by decide⟩

/-- C3 amended: the newer validator `orderValue` (the ConventionalCommit
version) implements the case-insensitive level function of the
specification, but the `orderValue` of rule PR-01 (and of the older
validator) compares the type to the literals `feat` and `fix`
case-sensitively, mapping non-breaking commits of type `FEAT` or `Fix` to
level `0`. -/
theorem c3_amended_orderValue_case_handling :
    (∀ c : ConventionalCommitIt, orderValueV2 c = levelSpec c.breaking c.type) ∧
    orderValuePR01
        (some ⟨parseRaw ⟨"0a0b0c0d", "FEAT: add new feature", ""⟩,
          "FEAT", none, false, "add new feature"⟩) = 0 ∧
    orderValuePR01
        (some ⟨parseRaw ⟨"0a0b0c0d", "Fix: fix a bug", ""⟩,
          "Fix", none, false, "fix a bug"⟩) = 0 ∧
    orderValueV2 ⟨"0a0b0c0d", "FEAT: add new feature", some "FEAT", false, true⟩ = 2 ∧
    orderValueV2 ⟨"0a0b0c0d", "Fix: fix a bug", some "Fix", false, true⟩ = 1 :=
  ⟨fun _ => rfl, rfl, rfl, by decide, by decide⟩

/-- C5 fails on the code: the scope group `\(.*\)` is greedy, so for the
subject `feat(a)(b): x` the parsed scope element is `(a)(b)` — the
characters after the first closing parenthesis are part of the scope — and
not `(a)` as the claim states. -/
theorem c5_counterexample_scope_greedy :
    (parseRaw ⟨"0a0b0c0d", "feat(a)(b): x", ""⟩).scope.value = some "(a)(b)" ∧
    some "(a)(b)" ≠ some "(a)" := by
  refine ⟨by decide, by decide⟩

/-- C5 amended: scope capture is greedy, extending from the `(` that follows
the type through the last `)` that still lets the remainder match: the
subject `feat(a)(b): x` parses with scope `(a)(b)`, and `feat(a): do (thing)`
parses with scope `(a): do (thing)`; a single parenthesised group such as in
`feat(a): x` still yields `(a)`. -/
theorem c5_amended_scope_greedy :
    (parseRaw ⟨"0a0b0c0d", "feat(a)(b): x", ""⟩).scope.value = some "(a)(b)" ∧
    (parseRaw ⟨"0a0b0c0d", "feat(a): x", ""⟩).scope.value = some "(a)" ∧
    (parseRaw ⟨"0a0b0c0d", "feat(a): do (thing)", ""⟩).scope.value = some "(a): do (thing)" := by
  refine ⟨by decide, by decide, by decide⟩

/-- C6 fails on the code: `validateCommits` only filters subjects that start
with `fixup!`; a merge commit subject is kept and validated, yielding one
result entry, while the claim (and the repository test
`Ignore fixup and merge commits`) requires an empty result list. -/
theorem c6_merge_commit_not_excluded :
    (validateCommits {}
        [⟨"0a0b0c0d", "Merge pull request #123 from some-branch/feature/branch", ""⟩]).length = 1 ∧
    (validateCommits {} [⟨"0a0b0c0d", "fixup! feat: add new feature", ""⟩]).length = 0 := by
  refine ⟨by decide, by decide⟩

/-- C7: with an undefined or empty configured list the allow-list rules emit
nothing; with a non-empty list, EC-01 emits exactly one diagnostic exactly
when the scope is absent or its parenthesis-stripped text is not a member,
and EC-02 emits exactly one diagnostic exactly when the type value is not a
member. -/
theorem c7_allowlist_rules (cfg : Configuration) (c : IRawConventionalCommit) :
    (EC01errors cfg c).length =
      (if (cfg.scopes.getD []).isEmpty then 0 else if scopeAllowed cfg c then 0 else 1) ∧
    (EC02errors cfg c).length =
      (if (cfg.types.getD []).isEmpty then 0 else if typeAllowed cfg c then 0 else 1) := by
  constructor
  · unfold EC01errors scopeAllowed
    cases cfg.scopes with
    | none => simp
    | some scopes =>
      cases scopes with
      | nil => simp
      | cons a as =>
        cases hsc : c.scope.value with
        | none => simp
        | some s =>
          by_cases hm : stripParens s = a ∨ stripParens s ∈ as
          · simp [hm]
          · simp [hm]
  · unfold EC02errors typeAllowed
    cases cfg.types with
    | none => simp
    | some types =>
      cases types with
      | nil => simp
      | cons a as =>
        cases htc : c.type.value with
        | none => simp
        | some t =>
          by_cases hm : t = a ∨ t ∈ as
          · simp [hm]
          · simp [hm]

/-- C8 fails on the code: for the subject `chore: add stuff` under a
configuration whose type allow-list is `feat, fix`, the structural rules
CC-01, CC-04 and CC-05 emit zero diagnostics and EC-02 emits one, yet no
conventional commit value is derived — `validate` throws the collected
errors before the derivation step. -/
theorem c8_counterexample_allowlist_blocks_derivation :
    CC01errors (parseRaw ⟨"0a0b0c0d", "chore: add stuff", ""⟩) = [] ∧
    CC04errors (parseRaw ⟨"0a0b0c0d", "chore: add stuff", ""⟩) = [] ∧
    CC05errors (parseRaw ⟨"0a0b0c0d", "chore: add stuff", ""⟩) = [] ∧
    (EC02errors ⟨false, false, none, some ["feat", "fix"]⟩
        (parseRaw ⟨"0a0b0c0d", "chore: add stuff", ""⟩)).length = 1 ∧
    derives (parse ⟨false, false, none, some ["feat", "fix"]⟩
        ⟨"0a0b0c0d", "chore: add stuff", ""⟩) = false := by
  refine ⟨by decide, by decide, by decide, by decide, by decide⟩

/-- C8 amended: a conventional commit value is derived exactly when all five
commit rules — the structural rules and both allow-list rules — emit zero
diagnostics; an allow-list violation blocks derivation just like a
structural one. -/
theorem c8_amended_derivation_iff_no_diagnostics (cfg : Configuration)
    (c : IRawConventionalCommit) :
    (∃ cc, validate cfg c = Except.ok (some cc)) ↔
      (CC01errors c = [] ∧ CC04errors c = [] ∧ CC05errors c = [] ∧
        EC01errors cfg c = [] ∧ EC02errors cfg c = []) := by
  constructor
  · rintro ⟨cc, hcc⟩
    apply ruleErrorLists_eq_nil.mp
    unfold validate at hcc
    split at hcc
    · next h => simpa using h
    · exact absurd hcc (by simp)
  · intro h
    have hnil : ruleErrorLists cfg c = [] := ruleErrorLists_eq_nil.mpr h
    obtain ⟨ht, hs⟩ := CC01errors_nil_falsy h.1
    have hd := CC05errors_nil_description hs h.2.2.1
    refine ⟨⟨c, getV c.type.value, c.scope.value, c.breaking.value == some "!",
      getV c.description.value⟩, ?_⟩
    unfold validate
    rw [if_pos (by simp [hnil])]
    simp [truthy, ht, hd]

/-- C9 fails on the code: for the subject
`feat (scope): space between type and scope` the single CC-01 diagnostic is
anchored at column `5` — the offset of the scope element — not at column `4`
where the unexpected space begins. -/
theorem c9_counterexample_diag_column :
    (CC01errors (parseRaw
        ⟨"0a0b0c0d", "feat (scope): space between type and scope", ""⟩)).map Diag.column
      = [5] ∧
    ([5] : List Nat) ≠ [4] := by
  refine ⟨by decide, by decide⟩

/-- C9 amended: the diagnostic column is the offset of the element the error
is attributed to — here the scope element at offset `5`, computed as the
length of the space-padded type value `feat ` — one past the index `4`
where the unexpected space begins. -/
theorem c9_amended_diag_column :
    (CC01errors (parseRaw
        ⟨"0a0b0c0d", "feat (scope): space between type and scope", ""⟩)).map Diag.column
      = [5] ∧
    (parseRaw ⟨"0a0b0c0d", "feat (scope): space between type and scope", ""⟩).type.value
      = some "feat " ∧
    (parseRaw ⟨"0a0b0c0d", "feat (scope): space between type and scope", ""⟩).scope.index
      = 5 := by
  refine ⟨by decide, by decide, by decide⟩

/-- C10: when rules CC-01 and CC-05 emit no diagnostic, the type value and
the description value are defined and non-empty, so the assertions executed
during conventional-commit derivation cannot fail and `validate` never ends
in the assertion-failure outcome. -/
theorem c10_derivation_assertions_never_fail (cfg : Configuration)
    (c : IRawConventionalCommit) (h1 : CC01errors c = []) (h5 : CC05errors c = []) :
    (∃ t, c.type.value = some t ∧ t ≠ "") ∧
    (∃ d, c.description.value = some d ∧ d ≠ "") ∧
    validate cfg c ≠ Except.ok none := by
  obtain ⟨ht, hs⟩ := CC01errors_nil_falsy h1
  have hd := CC05errors_nil_description hs h5
  refine ⟨?_, ?_, validate_ne_ok_none cfg c⟩
  · cases hv : c.type.value with
    | none => rw [hv] at ht; simp [falsy] at ht
    | some t =>
      rw [hv] at ht
      simp [falsy] at ht
      exact ⟨t, rfl, ht⟩
  · cases hv : c.description.value with
    | none => rw [hv] at hd; simp [falsy] at hd
    | some d =>
      rw [hv] at hd
      simp [falsy] at hd
      exact ⟨d, rfl, hd⟩

/-- Witness for C10 at the subject `feat: add new feature`. -/
theorem c10_derivation_assertions_never_fail_witness :
    CC01errors (parseRaw ⟨"0a0b0c0d", "feat: add new feature", ""⟩) = [] ∧
    CC05errors (parseRaw ⟨"0a0b0c0d", "feat: add new feature", ""⟩) = [] ∧
    ((∃ t, (parseRaw ⟨"0a0b0c0d", "feat: add new feature", ""⟩).type.value = some t ∧ t ≠ "") ∧
      (∃ d, (parseRaw ⟨"0a0b0c0d", "feat: add new feature", ""⟩).description.value
        = some d ∧ d ≠ "") ∧
      validate {} (parseRaw ⟨"0a0b0c0d", "feat: add new feature", ""⟩) ≠ Except.ok none) :=
  ⟨by decide, by decide,
    c10_derivation_assertions_never_fail {} (parseRaw ⟨"0a0b0c0d", "feat: add new feature", ""⟩)
      (by decide) (by decide)⟩

end CommitMe
